import Mathlib

/-!
# Verification of `ia_remote_upload.py`

A shallow embedding of the single source file `src/ia_remote_upload.py` of the
`ia-remote-upload` repository, together with theorems settling the frozen claims
about its specification.

Modelling conventions:

* Python strings are modelled as `List Nat` of Unicode code points (`Str`);
  the helper `str` converts a Lean string literal into this representation.
* A CSV row (a `dict` produced by `csv.DictReader`) is an ordered association
  list `Row := List (Str × Str)`; `rowGet` is `row[k]`-style lookup (`none`
  models a raised `KeyError`).
* External collaborators (the `requests` HTTP client, the `internetarchive`
  client, `hashlib.md5`, `random`, `tempfile`'s name choice) are inputs of the
  model, collected in an `Env` record.  The observable world (local files,
  the `failed.txt` sidecar, the log, and the sequence of external calls) is a
  `W` record threaded through the functions.
* Python functions that can raise return `W × Except PyExc α`: the world at
  the moment of the raise is kept, mirroring the fact that side effects
  performed before an exception persist.
* `urllib.parse.urlparse` / `urllib.parse.quote` are modelled after CPython's
  `urllib/parse.py` (`urlsplit` with the WHATWG prefix strip and tab/CR/LF
  removal, scheme validation and lowercasing, netloc splitting, fragment and
  query splitting, and `_splitparams` guarded by `scheme in uses_params`).
  One restriction: CPython's `urlsplit` validates netlocs containing `[` or
  `]` (raising `ValueError` for unbalanced brackets or an invalid bracketed
  host); the model is total and agrees with CPython only on URLs whose
  netloc contains neither bracket, so every theorem about URLs carries an
  explicit hypothesis excluding brackets from the netloc it quantifies over.
-/

deriving instance DecidableEq for Except

namespace IAUpload

/-- A Python string, as its list of Unicode code points. -/
abbrev Str := List Nat

/-- Convert a Lean string literal to the code-point model. -/
def str (s : String) : Str := s.data.map Char.toNat

/-- A CSV row: an ordered mapping from column name to string value
(`csv.DictReader` yields dicts whose insertion order is the column order). -/
abbrev Row := List (Str × Str)

/-- `row[k]` lookup: the value at the first matching key, if any. -/
def rowGet (row : Row) (k : Str) : Option Str :=
  (row.find? fun kv => decide (kv.1 = k)).map (·.2)

/-! ## `urllib.parse.quote` (with UTF-8 encoding of non-ASCII characters) -/

/-- ASCII uppercase letter. -/
def isAsciiUpper (c : Nat) : Bool := 65 ≤ c && c ≤ 90

/-- ASCII lowercase letter. -/
def isAsciiLower (c : Nat) : Bool := 97 ≤ c && c ≤ 122

/-- ASCII letter. -/
def isAsciiAlpha (c : Nat) : Bool := isAsciiUpper c || isAsciiLower c

/-- ASCII digit. -/
def isAsciiDigit (c : Nat) : Bool := 48 ≤ c && c ≤ 57

/-- `str.lower` restricted to ASCII (the only case exercised: schemes are
validated to be ASCII before being lowercased). -/
def toLowerAscii (c : Nat) : Nat := if isAsciiUpper c then c + 32 else c

/-- UTF-8 encoding of one code point (Python `str.encode()` per character). -/
def utf8Bytes (c : Nat) : List Nat :=
  if c < 128 then [c]
  else if c < 2048 then [192 + c / 64, 128 + c % 64]
  else if c < 65536 then [224 + c / 4096, 128 + c / 64 % 64, 128 + c % 64]
  else [240 + c / 262144, 128 + c / 4096 % 64, 128 + c / 64 % 64, 128 + c % 64]

/-- UTF-8 encoding of a whole string (`s.encode()`). -/
def strUtf8 (s : Str) : List Nat := s.flatMap utf8Bytes

/-- Uppercase hexadecimal digit, as used by `quote`'s `%XX` escapes. -/
def hexUpper (n : Nat) : Nat := if n < 10 then 48 + n else 55 + n

/-- The `%XX` escape of one byte. -/
def percentByte (b : Nat) : List Nat := [37, hexUpper (b / 16), hexUpper (b % 16)]

/-- `quote`'s always-safe characters: ASCII letters, digits, `_.-~`. -/
def isAlwaysSafe (c : Nat) : Bool :=
  isAsciiAlpha c || isAsciiDigit c || c == 95 || c == 46 || c == 45 || c == 126

/-- `urllib.parse.quote(s, safe)`: keep always-safe and `safe` characters,
percent-encode the UTF-8 bytes of everything else. -/
def pyQuote (safe : Str) : Str → Str
  | [] => []
  | c :: cs =>
    (if isAlwaysSafe c || safe.contains c then [c]
     else (utf8Bytes c).flatMap percentByte) ++ pyQuote safe cs

/-! ## `urllib.parse.urlparse` -/

/-- Characters allowed after the first one in a URL scheme
(`scheme_chars = ascii_letters + digits + '+-.'`). -/
def isSchemeChar (c : Nat) : Bool :=
  isAsciiAlpha c || isAsciiDigit c || c == 43 || c == 45 || c == 46

/-- Split a string at the first occurrence of `sep` (the separator removed),
or `none` when `sep` does not occur. -/
def splitFirst (sep : Nat) : Str → Option (Str × Str)
  | [] => none
  | c :: cs =>
    if c = sep then some ([], cs)
    else (splitFirst sep cs).map fun p => (c :: p.1, p.2)

/-- Split a string at the last occurrence of `sep`. -/
def splitLast (sep : Nat) (l : Str) : Option (Str × Str) :=
  (splitFirst sep l.reverse).map fun p => (p.2.reverse, p.1.reverse)

/-- A character that `urlsplit`'s normalisation keeps: anything but tab,
carriage return and newline (`_UNSAFE_URL_BYTES_TO_REMOVE`). -/
def urlKeepChar (c : Nat) : Bool := !(c == 9 || c == 13 || c == 10)

/-- `urlsplit`'s input normalisation: strip leading WHATWG C0-control-or-space
characters, then remove every tab, carriage return and newline. -/
def cleanUrl (u : Str) : Str :=
  (u.dropWhile fun c => decide (c ≤ 32)).filter urlKeepChar

/-- Scheme recognition of `urlsplit`: split at the first `:`; when the part
before it is non-empty, starts with an ASCII letter and continues with scheme
characters, it is the (lowercased) scheme. -/
def parseScheme (url : Str) : Str × Str :=
  match splitFirst 58 url with
  | some (h :: t, post) =>
    if isAsciiAlpha h && t.all isSchemeChar
    then ((h :: t).map toLowerAscii, post) else ([], url)
  | _ => ([], url)

/-- A character ending the netloc (`'/'`, `'?'` or `'#'`). -/
def isNetlocDelim (c : Nat) : Bool := c == 47 || c == 63 || c == 35

/-- Netloc recognition: after a leading `//`, the netloc extends to the first
`/`, `?` or `#`. -/
def netlocSplit (url : Str) : Str × Str :=
  if url.take 2 = [47, 47] then
    ((url.drop 2).takeWhile fun c => !isNetlocDelim c,
     (url.drop 2).dropWhile fun c => !isNetlocDelim c)
  else ([], url)

/-- Fragment split: everything after the first `#`. -/
def fragSplit (url : Str) : Str × Str :=
  match splitFirst 35 url with
  | some p => p
  | none => (url, [])

/-- Query split: everything after the first `?`. -/
def querySplit (url : Str) : Str × Str :=
  match splitFirst 63 url with
  | some p => p
  | none => (url, [])

/-- Result of `urlsplit`. -/
structure SplitResult where
  scheme : Str
  netloc : Str
  path : Str
  query : Str
  fragment : Str
deriving DecidableEq, Repr

/-- `urllib.parse.urlsplit`.  The bracketed-host checks are not modelled:
CPython raises `ValueError` when the netloc has unbalanced brackets or a
balanced-but-invalid bracketed host, while this total function returns a
result; it therefore agrees with CPython exactly on URLs whose netloc
contains neither `[` nor `]`, and the URL theorems restrict themselves to
that domain. -/
def urlsplit (u : Str) : SplitResult :=
  let a := parseScheme (cleanUrl u)
  let b := netlocSplit a.2
  let c := fragSplit b.2
  let d := querySplit c.1
  ⟨a.1, b.1, d.1, d.2, c.2⟩

/-- `_splitparams`: parameters are everything after the first `;` of the last
path segment. -/
def splitparams (url : Str) : Str × Str :=
  match splitLast 47 url with
  | some (a, b) =>
    match splitFirst 59 b with
    | some (b1, b2) => (a ++ 47 :: b1, b2)
    | none => (url, [])
  | none =>
    match splitFirst 59 url with
    | some p => p
    | none => (url, [])

/-- Result of `urlparse`. -/
structure ParseResult where
  scheme : Str
  netloc : Str
  path : Str
  params : Str
  query : Str
  fragment : Str
deriving DecidableEq, Repr

/-- `uses_params` (`urllib/parse.py` line 64): the schemes whose URLs can
carry `;parameters` in the last path segment; `urlparse` performs the params
split only for these. -/
def uses_params : List Str :=
  [str "", str "ftp", str "hdl", str "prospero", str "http", str "imap",
   str "https", str "shttp", str "rtsp", str "rtsps", str "rtspu", str "sip",
   str "sips", str "mms", str "sftp", str "tel"]

/-- `urllib.parse.urlparse`: `urlsplit`, plus the params split on the path —
guarded by `scheme in uses_params and ';' in url`, so for schemes outside
`uses_params` (e.g. `file`) the `;parameters` stay in the path. -/
def urlparse (u : Str) : ParseResult :=
  let s := urlsplit u
  let pp :=
    if s.scheme ∈ uses_params ∧ 59 ∈ s.path then splitparams s.path
    else (s.path, [])
  ⟨s.scheme, s.netloc, pp.1, pp.2, s.query, s.fragment⟩

/-- `encode_url` (lines 98–101): re-encode the path with `quote(path, "/+")`
and reassemble only scheme, netloc and path. -/
def encode_url (u : Str) : Str :=
  let p := urlparse u
  p.scheme ++ 58 :: 47 :: 47 :: (p.netloc ++ pyQuote [47, 43] p.path)

/-- A path character that `quote(·, safe="/+")` leaves unchanged: an
unreserved character (letter, digit, `-._~`) or one of the two preserved
reserved characters `/` and `+`.  This is the formal reading of a path with
"no reserved characters outside `/` and `+`": nothing in it needs escaping. -/
def isSafePathChar (c : Nat) : Bool := isAlwaysSafe c || c == 47 || c == 43

/-! ## Identifier strategy, metadata cleaning -/

/-- The lowercase hexadecimal digit for `n < 16` (as `hexdigest` uses). -/
def hexLower (n : Nat) : Nat := if n < 10 then 48 + n else 87 + n

/-- `hashlib.md5(...).hexdigest()` for a 128-bit digest value: 32 lowercase
hexadecimal digits, most significant first. -/
def hexdigest128 (d : Fin (2 ^ 128)) : Str :=
  (List.range 32).map fun i => hexLower (d.val / 16 ^ (31 - i) % 16)

/-- `string.ascii_letters + string.digits`: the population passed to
`random.choices` (62 symbols). -/
def lettersDigits : Str :=
  str "abcdefghijklmnopqrstuvwxyzABCDEFGHIJKLMNOPQRSTUVWXYZ0123456789"

/-- `random.choices(population, k=k)`: `k` independent draws from the
population; the random source is modelled by `rand`, the draw index mapped to
a natural number that selects the element (reduced mod the population size,
as a uniform draw selects a valid index). -/
def pyChoices (rand : Nat → Nat) (population : Str) (k : Nat) : Str :=
  (List.range k).map fun i => population.getD (rand i % population.length) 0

/-- `"".join(str(value) for value in row.values())`: row values are strings
(from `csv.DictReader`), so `str` is the identity on them. -/
def joinValues (row : Row) : Str := (row.map Prod.snd).flatten

/-- Python exceptions that the modelled code can raise. -/
inductive PyExc where
  /-- `KeyError` from a `row[...]` lookup. -/
  | keyError (k : Str)
  /-- `AttributeError` from using `row=None` where a dict is needed. -/
  | attributeError
  /-- An exception raised by `requests.get` (connection failure, timeout). -/
  | requestsError (msg : Str)
deriving DecidableEq, Repr

/-- `create_identifier` (lines 52–60).  `md5` is the external `hashlib.md5`
digest (a 128-bit value of the input bytes); `rand` the `random` module's
source.  The `row.values()` call on a `None` row would raise
`AttributeError`; the source only reaches it with a dict. -/
def create_identifier (md5 : List Nat → Fin (2 ^ 128)) (rand : Nat → Nat)
    (id_type : Str) (row : Option Row) : Except PyExc Str :=
  if id_type = str "hash" then
    match row with
    | some r => .ok (hexdigest128 (md5 (strUtf8 (joinValues r))))
    | none => .error .attributeError
  else
    -- 8 * 10^32 possibilities (comment from the source)
    .ok (pyChoices rand lettersDigits 8)

/-- `clean_metadata_text` (lines 63–64): `text.replace("\x00", "")`. -/
def clean_metadata_text (text : Str) : Str := text.filter fun c => decide (c ≠ 0)

/-- The dict comprehension inside `clean_csv_data`: clean every value of a
row (keys untouched). -/
def clean_row (row : Row) : Row := row.map fun kv => (kv.1, clean_metadata_text kv.2)

/-- `clean_csv_data` (lines 67–72). -/
def clean_csv_data (csv_data : List Row) : List Row := csv_data.map clean_row

/-- The metadata dict comprehension of `process_row` (lines 167–171):
`{key: value for key, value in row.items() if key not in ["identifier", "file"]}`. -/
def rowMetadata (row : Row) : Row :=
  row.filter fun kv => decide (kv.1 ≠ str "identifier") && decide (kv.1 ≠ str "file")

/-! ## World state and external collaborators -/

/-- A log record's level. -/
inductive LogLevel where
  | info
  | warning
  | error
deriving DecidableEq, Repr

/-- One external call performed by the pipeline (remote service and network
effects, in order). -/
inductive Ev where
  /-- `get_item(identifier)` (existence check). -/
  | getItem (id : Str)
  /-- `requests.get(url, ...)` — the fetch. -/
  | httpGet (url : Str)
  /-- `upload(identifier, files=[file], metadata=...)` — the sink's upload. -/
  | uploadCall (id : Str) (file : Str) (metadata : Row)
  /-- `delete(identifier)` — the sink's remote delete. -/
  | deleteCall (id : Str)
  /-- `time.sleep(random.uniform(0, sleep))` — the pacing delay. -/
  | sleepEv
deriving DecidableEq, Repr

/-- The observable world: local files (path to bytes, newest entry first),
the lines of the `failed.txt` sidecar, the log, and the external calls. -/
structure W where
  fs : List (Str × List Nat)
  failed : List Str
  log : List (LogLevel × Str)
  events : List Ev
deriving DecidableEq, Repr

/-- Write (create or overwrite) a local file. -/
def fsWrite (fs : List (Str × List Nat)) (p : Str) (d : List Nat) :
    List (Str × List Nat) :=
  (p, d) :: fs.filter fun e => decide (e.1 ≠ p)

/-- Remove a local file. -/
def fsRemove (fs : List (Str × List Nat)) (p : Str) : List (Str × List Nat) :=
  fs.filter fun e => decide (e.1 ≠ p)

/-- Contents of a local file, if it exists. -/
def fsGet (fs : List (Str × List Nat)) (p : Str) : Option (List Nat) :=
  (fs.find? fun e => decide (e.1 = p)).map (·.2)

/-- `os.path.exists`. -/
def fsExists (fs : List (Str × List Nat)) (p : Str) : Bool :=
  (fs.find? fun e => decide (e.1 = p)).isSome

/-- Append a log record. -/
def logAt (lvl : LogLevel) (w : W) (m : Str) : W :=
  { w with log := w.log ++ [(lvl, m)] }

/-- Record an external call. -/
def addEvent (w : W) (e : Ev) : W := { w with events := w.events ++ [e] }

/-- `os.path.basename`: the part after the last `/`. -/
def basename (p : Str) : Str :=
  match splitLast 47 p with
  | some ab => ab.2
  | none => p

/-- Outcome of `requests.get(url, stream=True, timeout=60)`: either the call
raises (connection failure, timeout), or a response arrives, with a status
code and a body (the concatenation of the `iter_content` chunks). -/
inductive HttpOutcome where
  | raised (msg : Str)
  | resp (status : Nat) (body : List Nat)
deriving DecidableEq, Repr

/-- The external collaborators of one `process_row` call. -/
structure Env where
  /-- `get_item(identifier).exists` — the remote existence oracle. -/
  itemExists : Str → Bool
  /-- The network, by URL. -/
  http : Str → HttpOutcome
  /-- Outcome of the archive `upload` call for an identifier: `none` means
  success, `some msg` means it raised an exception rendering as `msg`. -/
  uploadExc : Str → Option Str
  /-- `hashlib.md5`: the 128-bit digest of a byte string. -/
  md5 : List Nat → Fin (2 ^ 128)
  /-- The `random` module's source of draws. -/
  rand : Nat → Nat
  /-- The file name chosen by `tempfile.NamedTemporaryFile`. -/
  tmpName : Str

/-- The IA credentials (`access_key`, `secret_key`); opaque to the model. -/
abbrev Keys := Str × Str

/-- `write_failed_url` (lines 75–77): append the URL as a line of the
`failed.txt` sidecar. -/
def write_failed_url (url : Str) (w : W) : W :=
  { w with failed := w.failed ++ [url] }

/-- `download_file_with_progress` (lines 80–95).  If `requests.get` raises,
the exception propagates (the destination file has not been opened yet).
Otherwise the body is streamed to `output_path` and the function returns
`True` — the status code is never inspected (`Content-Length` only feeds the
progress bar) and no path returns `False`. -/
def download_file_with_progress (net : Str → HttpOutcome) (url : Str)
    (output_path : Str) (w : W) : W × Except PyExc Bool :=
  let w := addEvent w (.httpGet url)
  match net url with
  | .raised m => (w, .error (.requestsError m))
  | .resp _ body => ({ w with fs := fsWrite w.fs output_path body }, .ok true)

/-- `upload_to_internet_archive` (lines 104–125).  The `upload` call is made
with `delete=True`, so on success the client library deletes the local file;
any exception is caught by the bare `except`, logged, and turned into
`False`.  This function never lets an exception escape. -/
def upload_to_internet_archive (uploadExc : Str → Option Str) (file_path : Str)
    (metadata : Row) (keys : Keys) (identifier : Str) (w : W) :
    W × Except PyExc Bool :=
  let w := logAt .info w
    (str "Uploading " ++ basename file_path ++ str " to " ++ identifier ++ str ".")
  let w := addEvent w (.uploadCall identifier file_path metadata)
  match uploadExc identifier with
  | none =>
    (logAt .info { w with fs := fsRemove w.fs file_path }
      (str "Successfully uploaded " ++ basename file_path ++ str " to "
        ++ identifier ++ str "."), .ok true)
  | some e =>
    (logAt .error w
      (str "Failed to upload " ++ basename file_path ++ str ": " ++ e), .ok false)

/-- `delete_item` (lines 128–133). -/
def delete_item (itemExists : Str → Bool) (identifier : Str) (w : W) : W :=
  let w := addEvent w (.getItem identifier)
  if itemExists identifier then addEvent w (.deleteCall identifier)
  else logAt .warning w (str "Item " ++ identifier ++ str " not found for deletion")

/-- The identifier resolution of `process_row` (lines 141–147). -/
def rowIdentifier (env : Env) (id_type : Str) (row : Row) : Except PyExc Str :=
  if id_type = str "identifier" then
    match rowGet row (str "identifier") with
    | some v => .ok v
    | none => .error (.keyError (str "identifier"))
  else if id_type = str "hash" then
    -- Use row to generate hash
    create_identifier env.md5 env.rand (str "hash") (some row)
  else
    create_identifier env.md5 env.rand id_type none

/-- `process_row` (lines 136–187).  Source defaults: `sleep=3`,
`id_type="hash"`, `skip=True`, `delete=False` (passed explicitly here).
There is no `try`/`except` in this function: a `KeyError` from a row lookup
or an exception from `requests.get` propagates to the caller, with the world
as it was at that point. -/
def process_row (env : Env) (row : Row) (keys : Keys) (sleep : Nat)
    (id_type : Str) (skip : Bool) (delete : Bool) (w : W) :
    W × Except PyExc Unit :=
  match rowGet row (str "file") with
  | none => (w, .error (.keyError (str "file")))
  | some fileVal =>
    let file_url := encode_url fileVal
    let file_name := basename file_url
    match rowIdentifier env id_type row with
    | .error e => (w, .error e)
    | .ok identifier =>
      -- Check if ID already exists
      let w := addEvent w (.getItem identifier)
      if env.itemExists identifier then
        -- both log f-strings evaluate row["identifier"], which raises
        -- KeyError when the column is absent
        match rowGet row (str "identifier") with
        | none => (w, .error (.keyError (str "identifier")))
        | some idVal =>
          if skip then
            (logAt .info w (str "Skipping existing item: " ++ idVal), .ok ())
          else
            (logAt .error w (str "Item already exists: " ++ idVal), .ok ())
      else
        let w := logAt .info w
          (str "Starting download for " ++ file_name ++ str " from " ++ file_url)
        -- tempfile.NamedTemporaryFile(delete=False, ...) creates an empty file
        let local_file_path := env.tmpName
        let w := { w with fs := fsWrite w.fs local_file_path [] }
        match download_file_with_progress env.http file_url local_file_path w with
        | (w, .error e) => (w, .error e)
        | (w, .ok true) =>
          let w := logAt .info w
            (str "Downloaded " ++ file_name ++ str " to " ++ local_file_path)
          let metadata := rowMetadata row
          if delete then
            let w := delete_item env.itemExists identifier w
            let w := logAt .info w
              (str "Deleted item with identifier: " ++ identifier)
            (addEvent w .sleepEv, .ok ())
          else
            match upload_to_internet_archive env.uploadExc local_file_path
                metadata keys identifier w with
            | (w, .ok true) =>
              let w :=
                if fsExists w.fs local_file_path then
                  logAt .info { w with fs := fsRemove w.fs local_file_path }
                    (str "Removed local file " ++ local_file_path)
                else w
              (addEvent w .sleepEv, .ok ())
            | (w, .ok false) =>
              (addEvent (write_failed_url file_url w) .sleepEv, .ok ())
            | (w, .error e) => (w, .error e)
        | (w, .ok false) =>
          -- dead in practice: the download never returns False
          let w := write_failed_url file_url w
          let w := { w with fs := fsRemove w.fs local_file_path }
          (addEvent w .sleepEv, .ok ())

/-- The per-row lambda of `process_csv` applied to the row list, in manifest
order (line 197–201): `process_row(row, keys, id_type=id_type, skip=skip)` —
`sleep` and `delete` keep their defaults `3` and `False`.  `thread_map`
re-raises a worker's exception when collecting results; the model is the
sequential abstraction of the observable outcome, stopping at the first
raised exception. -/
def processRows (envs : Nat → Env) (rows : List Row) (keys : Keys)
    (id_type : Str) (skip : Bool) (i : Nat) (w : W) : W × Except PyExc Unit :=
  match rows with
  | [] => (w, .ok ())
  | r :: rest =>
    match process_row (envs i) r keys 3 id_type skip false w with
    | (w, .ok _) => processRows envs rest keys id_type skip (i + 1) w
    | (w, .error e) => (w, .error e)

/-- `process_csv` (lines 190–201).  The CSV has already been parsed to
`csv_data` (the `csv.DictReader` output); `envs i` is the environment seen by
the worker processing row `i`. -/
def process_csv (envs : Nat → Env) (csv_data : List Row) (keys : Keys)
    (id_type : Str) (skip : Bool) (delete : Bool) (max_workers : Nat) (w : W) :
    W × Except PyExc Unit :=
  let cleaned_data := clean_csv_data csv_data
  -- Map n workers to each row
  processRows envs cleaned_data keys id_type skip 0 w

/-! ## Concrete fixtures for counterexamples and witnesses -/

/-- Environment of a run where nothing exists remotely, the network returns
`200 BODY` for every URL, every upload raises `boom`, md5 digests are `0`,
the random source draws `0`, and the temp file is `/tmp/t0`. -/
def envFail : Env :=
  ⟨fun _ => false, fun _ => .resp 200 (str "BODY"), fun _ => some (str "boom"),
    fun _ => 0, fun _ => 0, str "/tmp/t0"⟩

/-- Like `envFail`, but every upload succeeds. -/
def envOk : Env := { envFail with uploadExc := fun _ => none }

/-- Like `envFail`, but every identifier already exists remotely. -/
def envExists : Env := { envFail with itemExists := fun _ => true }

/-- Like `envFail`, but `requests.get` raises a connection error. -/
def envRaise : Env := { envFail with http := fun _ => .raised (str "conn") }

/-- A row with a `file` column and one metadata column, no `identifier`. -/
def rowA : Row := [(str "file", str "http://h/f.mp4"), (str "title", str "T")]

/-- The empty initial world. -/
def w0 : W := ⟨[], [], [], []⟩

/-- Concrete credentials. -/
def keys0 : Keys := (str "AK", str "SK")

/-! ## Splitting lemmas -/

lemma splitFirst_of_not_mem {sep : Nat} {l : Str} (h : sep ∉ l) :
    splitFirst sep l = none := by
  induction l with
  | nil => rfl
  | cons c cs ih =>
    simp only [List.mem_cons, not_or] at h
    have hc : ¬c = sep := fun hh => h.1 hh.symm
    simp [splitFirst, hc, ih h.2]

lemma splitFirst_append_cons {sep : Nat} {a : Str} (b : Str) (h : sep ∉ a) :
    splitFirst sep (a ++ sep :: b) = some (a, b) := by
  induction a with
  | nil => simp [splitFirst]
  | cons c cs ih =>
    simp only [List.mem_cons, not_or] at h
    simp [splitFirst, Ne.symm h.1, ih h.2]

lemma splitFirst_some_eq {sep : Nat} {l : Str} {p : Str × Str}
    (h : splitFirst sep l = some p) : l = p.1 ++ sep :: p.2 := by
  induction l generalizing p with
  | nil => simp [splitFirst] at h
  | cons c cs ih =>
    by_cases hc : c = sep
    · simp [splitFirst, hc] at h
      simp [← h, hc]
    · rcases hsp : splitFirst sep cs with _ | q
      · rw [splitFirst, if_neg hc, hsp] at h
        simp at h
      · rw [splitFirst, if_neg hc, hsp] at h
        simp only [Option.map, Option.some.injEq] at h
        have hq := ih hsp
        simp [← h, hq]

lemma splitLast_append_cons {sep : Nat} (a : Str) {b : Str} (h : sep ∉ b) :
    splitLast sep (a ++ sep :: b) = some (a, b) := by
  have : (a ++ sep :: b).reverse = b.reverse ++ sep :: a.reverse := by
    simp [List.reverse_append]
  rw [splitLast, this, splitFirst_append_cons _ (by simpa using h)]
  simp

lemma exists_last_occurrence {a : Nat} {l : Str} (h : a ∈ l) :
    ∃ x y, l = x ++ a :: y ∧ a ∉ y := by
  induction l with
  | nil => simp at h
  | cons c cs ih =>
    by_cases hm : a ∈ cs
    · obtain ⟨x, y, rfl, hy⟩ := ih hm
      exact ⟨c :: x, y, rfl, hy⟩
    · have hc : a = c := by
        rcases List.mem_cons.1 h with h1 | h1
        · exact h1
        · exact absurd h1 hm
      exact ⟨[], cs, by simp [hc], hm⟩

lemma takeWhile_append_all {p : Nat → Bool} {a : Str} (b : Str)
    (h : ∀ c ∈ a, p c = true) :
    (a ++ b).takeWhile p = a ++ b.takeWhile p := by
  induction a with
  | nil => simp
  | cons c cs ih =>
    simp [List.takeWhile_cons, h c (List.mem_cons_self c cs),
      ih fun x hx => h x (List.mem_cons_of_mem c hx)]

lemma dropWhile_append_all {p : Nat → Bool} {a : Str} (b : Str)
    (h : ∀ c ∈ a, p c = true) :
    (a ++ b).dropWhile p = b.dropWhile p := by
  induction a with
  | nil => simp
  | cons c cs ih =>
    simp [List.dropWhile_cons, h c (List.mem_cons_self c cs),
      ih fun x hx => h x (List.mem_cons_of_mem c hx)]

lemma mem_of_mem_dropWhile {p : Nat → Bool} {c : Nat} {l : Str}
    (h : c ∈ l.dropWhile p) : c ∈ l :=
  (List.dropWhile_sublist p).mem h

lemma mem_of_mem_takeWhile {p : Nat → Bool} {c : Nat} {l : Str}
    (h : c ∈ l.takeWhile p) : c ∈ l :=
  (List.takeWhile_sublist p).mem h

lemma pyQuote_eq_self {safe : Str} {s : Str}
    (h : ∀ c ∈ s, (isAlwaysSafe c || safe.contains c) = true) :
    pyQuote safe s = s := by
  induction s with
  | nil => rfl
  | cons c cs ih =>
    simp only [pyQuote, h c (List.mem_cons_self c cs), if_true]
    simp [ih fun x hx => h x (List.mem_cons_of_mem c hx)]

/-! ## Character class lemmas -/

lemma isAsciiAlpha_iff {c : Nat} :
    isAsciiAlpha c = true ↔ (65 ≤ c ∧ c ≤ 90) ∨ (97 ≤ c ∧ c ≤ 122) := by
  simp [isAsciiAlpha, isAsciiUpper, isAsciiLower]

lemma isSchemeChar_iff {c : Nat} :
    isSchemeChar c = true ↔
      (65 ≤ c ∧ c ≤ 90) ∨ (97 ≤ c ∧ c ≤ 122) ∨ (48 ≤ c ∧ c ≤ 57) ∨
        c = 43 ∨ c = 45 ∨ c = 46 := by
  simp [isSchemeChar, isAsciiAlpha, isAsciiUpper, isAsciiLower, isAsciiDigit]
  tauto

lemma isAlwaysSafe_iff {c : Nat} :
    isAlwaysSafe c = true ↔
      (65 ≤ c ∧ c ≤ 90) ∨ (97 ≤ c ∧ c ≤ 122) ∨ (48 ≤ c ∧ c ≤ 57) ∨
        c = 95 ∨ c = 46 ∨ c = 45 ∨ c = 126 := by
  simp [isAlwaysSafe, isAsciiAlpha, isAsciiUpper, isAsciiLower, isAsciiDigit]
  tauto

lemma isSafePathChar_iff {c : Nat} :
    isSafePathChar c = true ↔
      (65 ≤ c ∧ c ≤ 90) ∨ (97 ≤ c ∧ c ≤ 122) ∨ (48 ≤ c ∧ c ≤ 57) ∨
        c = 95 ∨ c = 46 ∨ c = 45 ∨ c = 126 ∨ c = 47 ∨ c = 43 := by
  simp [isSafePathChar, isAlwaysSafe_iff]
  tauto

lemma isNetlocDelim_iff {c : Nat} :
    isNetlocDelim c = true ↔ c = 47 ∨ c = 63 ∨ c = 35 := by
  simp [isNetlocDelim]
  tauto

lemma toLowerAscii_eq (c : Nat) :
    toLowerAscii c = if 65 ≤ c ∧ c ≤ 90 then c + 32 else c := by
  simp [toLowerAscii, isAsciiUpper]

lemma toLowerAscii_toLowerAscii (c : Nat) :
    toLowerAscii (toLowerAscii c) = toLowerAscii c := by
  by_cases h : 65 ≤ c ∧ c ≤ 90
  · simp only [toLowerAscii_eq, if_pos h]
    rw [if_neg (by omega)]
  · simp only [toLowerAscii_eq, if_neg h]

lemma isAsciiAlpha_toLowerAscii {c : Nat} (h : isAsciiAlpha c = true) :
    isAsciiAlpha (toLowerAscii c) = true := by
  rw [isAsciiAlpha_iff] at h ⊢
  rw [toLowerAscii_eq]
  split <;> omega

lemma isSchemeChar_toLowerAscii {c : Nat} (h : isSchemeChar c = true) :
    isSchemeChar (toLowerAscii c) = true := by
  rw [isSchemeChar_iff] at h ⊢
  rw [toLowerAscii_eq]
  split <;> omega

lemma isSchemeChar_of_alpha {c : Nat} (h : isAsciiAlpha c = true) :
    isSchemeChar c = true := by
  rw [isAsciiAlpha_iff] at h
  rw [isSchemeChar_iff]
  omega

/-- Scheme characters are printable and are none of the characters the URL
splitter treats specially. -/
lemma isSchemeChar_props {c : Nat} (h : isSchemeChar c = true) :
    32 < c ∧ c ≠ 58 ∧ c ≠ 9 ∧ c ≠ 13 ∧ c ≠ 10 := by
  rw [isSchemeChar_iff] at h
  omega

/-- Safe path characters are printable and are none of `#?;:` nor a netloc
delimiter other than `/`. -/
lemma isSafePathChar_props {c : Nat} (h : isSafePathChar c = true) :
    32 < c ∧ c ≠ 35 ∧ c ≠ 63 ∧ c ≠ 59 ∧ c ≠ 58 ∧ c ≠ 9 ∧ c ≠ 13 ∧ c ≠ 10 := by
  rw [isSafePathChar_iff] at h
  omega

lemma isSafePathChar_quotekeep {c : Nat} (h : isSafePathChar c = true) :
    (isAlwaysSafe c || List.contains [47, 43] c) = true := by
  rw [isSafePathChar] at h
  cases h47 : c == 47 <;> cases h43 : c == 43 <;>
    simp_all [List.contains, List.elem]

/-! ## `urlsplit` computation lemmas -/

lemma urlKeepChar_iff {c : Nat} :
    urlKeepChar c = true ↔ c ≠ 9 ∧ c ≠ 13 ∧ c ≠ 10 := by
  simp only [urlKeepChar, Bool.not_eq_true', Bool.or_eq_false_iff,
    beq_eq_false_iff_ne]
  tauto

lemma cleanUrl_eq_self {l : Str} (h0 : ∃ a t, l = a :: t ∧ 32 < a)
    (h1 : ∀ c ∈ l, c ≠ 9 ∧ c ≠ 13 ∧ c ≠ 10) : cleanUrl l = l := by
  obtain ⟨a, t, rfl, ha⟩ := h0
  rw [cleanUrl, List.dropWhile_cons, if_neg (by simp; omega)]
  rw [List.filter_eq_self]
  exact fun c hc => urlKeepChar_iff.2 (h1 c hc)

lemma cleanUrl_mem_props {u : Str} {c : Nat} (h : c ∈ cleanUrl u) :
    c ≠ 9 ∧ c ≠ 13 ∧ c ≠ 10 :=
  urlKeepChar_iff.1 (List.of_mem_filter h)

lemma parseScheme_append {S : Str} (R : Str)
    (h : ∃ a t, S = a :: t ∧ isAsciiAlpha a = true ∧ t.all isSchemeChar = true) :
    parseScheme (S ++ 58 :: R) = (S.map toLowerAscii, R) := by
  obtain ⟨a, t, rfl, ha, ht⟩ := h
  have h58 : (58 : Nat) ∉ a :: t := by
    intro hm
    rcases List.mem_cons.1 hm with h1 | h1
    · exact absurd (isSchemeChar_props (isSchemeChar_of_alpha ha)).2.1 (by omega)
    · exact absurd (isSchemeChar_props (List.all_eq_true.1 ht 58 h1)).2.1 (by simp)
  have hsf : splitFirst 58 (a :: (t ++ 58 :: R)) = some (a :: t, R) := by
    rw [← List.cons_append]
    exact splitFirst_append_cons _ h58
  simp [parseScheme, hsf, ha, ht]

lemma netlocSplit_concat {N : Str} (P : Str)
    (hN : ∀ c ∈ N, isNetlocDelim c = false) :
    netlocSplit (47 :: 47 :: (N ++ P)) =
      (N ++ P.takeWhile (fun c => !isNetlocDelim c),
       P.dropWhile fun c => !isNetlocDelim c) := by
  have hq : ∀ c ∈ N, (!isNetlocDelim c) = true := fun c hc => by simp [hN c hc]
  rw [netlocSplit,
    if_pos (show List.take 2 (47 :: 47 :: (N ++ P)) = [47, 47] from rfl)]
  simp only [List.drop_succ_cons, List.drop_zero]
  rw [takeWhile_append_all _ hq, dropWhile_append_all _ hq]

lemma parseScheme_fst_shape (url : Str) :
    (parseScheme url).1 = [] ∨
      ∃ a t, (parseScheme url).1 = a :: t ∧ isAsciiAlpha a = true ∧
        t.all isSchemeChar = true ∧
        (a :: t).map toLowerAscii = a :: t := by
  rcases hsp : splitFirst 58 url with _ | p
  · left
    simp [parseScheme, hsp]
  · obtain ⟨pre, post⟩ := p
    rcases pre with _ | ⟨a, t⟩
    · left
      simp [parseScheme, hsp]
    · by_cases hg : isAsciiAlpha a = true ∧ t.all isSchemeChar = true
      · right
        refine ⟨toLowerAscii a, t.map toLowerAscii, ?_, ?_, ?_, ?_⟩
        · simp [parseScheme, hsp, hg.1, hg.2]
        · exact isAsciiAlpha_toLowerAscii hg.1
        · rw [List.all_eq_true]
          intro x hx
          obtain ⟨y, hy, rfl⟩ := List.mem_map.1 hx
          exact isSchemeChar_toLowerAscii (List.all_eq_true.1 hg.2 y hy)
        · simp [List.map_map, Function.comp_def, toLowerAscii_toLowerAscii]
      · left
        have hgb : (isAsciiAlpha a && t.all isSchemeChar) = false := by
          by_contra hcon
          rw [Bool.not_eq_false, Bool.and_eq_true] at hcon
          exact hg ⟨hcon.1, hcon.2⟩
        simp [parseScheme, hsp, hgb]

lemma parseScheme_snd_subset {url : Str} {c : Nat}
    (h : c ∈ (parseScheme url).2) : c ∈ url := by
  rcases hsp : splitFirst 58 url with _ | p
  · simp only [parseScheme, hsp] at h
    exact h
  · obtain ⟨pre, post⟩ := p
    have heq := splitFirst_some_eq hsp
    rcases pre with _ | ⟨a, t⟩
    · simp only [parseScheme, hsp] at h
      exact h
    · by_cases hg : (isAsciiAlpha a && t.all isSchemeChar) = true
      · simp only [parseScheme, hsp, hg, if_true] at h
        rw [heq]
        simp only [List.mem_append, List.mem_cons]
        tauto
      · simp only [parseScheme, hsp, hg, if_false] at h
        exact h

lemma netlocSplit_fst_props {url : Str} {c : Nat}
    (h : c ∈ (netlocSplit url).1) : isNetlocDelim c = false ∧ c ∈ url := by
  by_cases h2 : url.take 2 = [47, 47]
  · rw [netlocSplit, if_pos h2] at h
    refine ⟨by simpa using List.mem_takeWhile_imp h, ?_⟩
    exact List.mem_of_mem_drop (mem_of_mem_takeWhile h)
  · rw [netlocSplit, if_neg h2] at h
    exact absurd h (List.not_mem_nil c)

/-- Re-parsing a reassembled `scheme://netloc + safe-path` URL is the
identity: the core fixed-point fact behind idempotence of `encode_url`. -/
lemma encode_url_reconstruct (S N P : Str)
    (hS : ∃ a t, S = a :: t ∧ isAsciiAlpha a = true ∧
      t.all isSchemeChar = true ∧ S.map toLowerAscii = S)
    (hN : ∀ c ∈ N, isNetlocDelim c = false ∧ c ≠ 9 ∧ c ≠ 13 ∧ c ≠ 10)
    (hP : ∀ c ∈ P, isSafePathChar c = true) :
    encode_url (S ++ 58 :: 47 :: 47 :: (N ++ P)) =
      S ++ 58 :: 47 :: 47 :: (N ++ P) := by
  obtain ⟨a, t, hSe, ha, ht, hlow⟩ := hS
  have hSall : ∀ c ∈ S, isSchemeChar c = true := by
    intro c hc
    rw [hSe] at hc
    rcases List.mem_cons.1 hc with h1 | h1
    · rw [h1]
      exact isSchemeChar_of_alpha ha
    · exact List.all_eq_true.1 ht c h1
  have hclean : cleanUrl (S ++ 58 :: 47 :: 47 :: (N ++ P)) =
      S ++ 58 :: 47 :: 47 :: (N ++ P) := by
    refine cleanUrl_eq_self ?_ ?_
    · exact ⟨a, t ++ 58 :: 47 :: 47 :: (N ++ P), by simp [hSe],
        (isSchemeChar_props (isSchemeChar_of_alpha ha)).1⟩
    · intro c hc
      simp only [List.mem_append, List.mem_cons] at hc
      rcases hc with h1 | h1 | h1 | h1 | h1
      · have := isSchemeChar_props (hSall c h1)
        omega
      · omega
      · omega
      · omega
      · rcases h1 with h2 | h2
        · have := hN c h2
          omega
        · have := isSafePathChar_props (hP c h2)
          omega
  have hps : parseScheme (S ++ 58 :: 47 :: 47 :: (N ++ P)) =
      (S, 47 :: 47 :: (N ++ P)) := by
    rw [parseScheme_append _ ⟨a, t, hSe, ha, ht⟩, hlow]
  have hns := netlocSplit_concat (N := N) P fun c hc => (hN c hc).1
  have hdropP : ∀ c ∈ P.dropWhile (fun c => !isNetlocDelim c),
      isSafePathChar c = true :=
    fun c hc => hP c (mem_of_mem_dropWhile hc)
  have hfrag : splitFirst 35 (P.dropWhile fun c => !isNetlocDelim c) = none := by
    refine splitFirst_of_not_mem fun hm => ?_
    exact absurd (isSafePathChar_props (hdropP 35 hm)).2.1 (by simp)
  have hquery : splitFirst 63 (P.dropWhile fun c => !isNetlocDelim c) = none := by
    refine splitFirst_of_not_mem fun hm => ?_
    exact absurd (isSafePathChar_props (hdropP 63 hm)).2.2.1 (by simp)
  have hsemi : (59 : Nat) ∉ P.dropWhile (fun c => !isNetlocDelim c) := by
    intro hm
    exact absurd (isSafePathChar_props (hdropP 59 hm)).2.2.2.1 (by simp)
  have hsplit : urlsplit (S ++ 58 :: 47 :: 47 :: (N ++ P)) =
      ⟨S, N ++ P.takeWhile (fun c => !isNetlocDelim c),
        P.dropWhile (fun c => !isNetlocDelim c), [], []⟩ := by
    rw [urlsplit, hclean, hps]
    simp only [hns, fragSplit, hfrag, querySplit, hquery]
  have hparse : urlparse (S ++ 58 :: 47 :: 47 :: (N ++ P)) =
      ⟨S, N ++ P.takeWhile (fun c => !isNetlocDelim c),
        P.dropWhile (fun c => !isNetlocDelim c), [], [], []⟩ := by
    rw [urlparse, hsplit]
    simp [hsemi]
  rw [encode_url, hparse]
  rw [pyQuote_eq_self fun c hc => isSafePathChar_quotekeep (hdropP c hc)]
  simp only [List.append_assoc, List.takeWhile_append_dropWhile]

/-- Claim C9: URL encoding is idempotent on already-encoded inputs — for
every URL with a scheme whose parsed path contains no reserved characters
outside `/` and `+` (formally: only characters that `quote(·, safe="/+")`
keeps unchanged, i.e. unreserved characters and `/`, `+`),
`encode_url (encode_url u) = encode_url u`.  The hypothesis on the parsed
path is stated on `urlparse`'s output, after the `uses_params`-guarded
params split: for a scheme outside `uses_params` a `;` stays in the path and
falls outside the safe set, as it must — `encode_url` is genuinely not
idempotent there.  The bracket hypothesis `hbr` restricts the claim to the
domain on which the model agrees with CPython: netlocs containing `[` or `]`
make the real `urlsplit` validate (and possibly raise), which the total
model does not represent. -/
theorem C9_encode_url_idempotent (u : Str)
    (hscheme : (urlparse u).scheme ≠ [])
    (hbr : ∀ c ∈ (urlparse u).netloc, c ≠ 91 ∧ c ≠ 93)
    (hpath : ∀ c ∈ (urlparse u).path, isSafePathChar c = true) :
    encode_url (encode_url u) = encode_url u := by
  have hq : pyQuote [47, 43] (urlparse u).path = (urlparse u).path :=
    pyQuote_eq_self fun c hc => isSafePathChar_quotekeep (hpath c hc)
  have henc : encode_url u =
      (urlparse u).scheme ++ 58 :: 47 :: 47 ::
        ((urlparse u).netloc ++ (urlparse u).path) := by
    show (urlparse u).scheme ++ 58 :: 47 :: 47 ::
        ((urlparse u).netloc ++ pyQuote [47, 43] (urlparse u).path) = _
    rw [hq]
  have hid1 : (urlparse u).scheme = (parseScheme (cleanUrl u)).1 := rfl
  have hid2 : (urlparse u).netloc =
      (netlocSplit (parseScheme (cleanUrl u)).2).1 := rfl
  rcases parseScheme_fst_shape (cleanUrl u) with h0 | ⟨a, t, hat, ha, ht, hlow⟩
  · exact absurd (hid1.trans h0) hscheme
  · have hS : ∃ a t, (urlparse u).scheme = a :: t ∧ isAsciiAlpha a = true ∧
        t.all isSchemeChar = true ∧
        (urlparse u).scheme.map toLowerAscii = (urlparse u).scheme := by
      refine ⟨a, t, hid1.trans hat, ha, ht, ?_⟩
      rw [hid1, hat, hlow]
    have hN : ∀ c ∈ (urlparse u).netloc,
        isNetlocDelim c = false ∧ c ≠ 9 ∧ c ≠ 13 ∧ c ≠ 10 := by
      intro c hc
      rw [hid2] at hc
      have h3 := netlocSplit_fst_props hc
      exact ⟨h3.1, cleanUrl_mem_props (parseScheme_snd_subset h3.2)⟩
    have hmain := encode_url_reconstruct (urlparse u).scheme
      (urlparse u).netloc (urlparse u).path hS hN hpath
    rw [henc]
    exact hmain

/-- Witness for C9 at a concrete URL. -/
theorem C9_encode_url_idempotent_witness :
    (urlparse (str "http://example.com/files/a+b.mp4")).scheme ≠ [] ∧
      (∀ c ∈ (urlparse (str "http://example.com/files/a+b.mp4")).netloc,
        c ≠ 91 ∧ c ≠ 93) ∧
      (∀ c ∈ (urlparse (str "http://example.com/files/a+b.mp4")).path,
        isSafePathChar c = true) ∧
      encode_url (encode_url (str "http://example.com/files/a+b.mp4")) =
        encode_url (str "http://example.com/files/a+b.mp4") :=
  ⟨by decide, by decide, by decide,
    C9_encode_url_idempotent (str "http://example.com/files/a+b.mp4")
      (by decide) (by decide) (by decide)⟩

/-- Claim C10: `encode_url` returns only the scheme, network location and
percent-encoded path.  For a URL assembled from a scheme `S`, a bracket-free
netloc `N`, a path `P`, parameters `M`, a query `Q` and a fragment `F`:
the query string and the fragment are always discarded, and the result is
`lower(S) ++ "://" ++ N ++ quote(path, "/+")`.  Parameters exist only for
schemes in `uses_params`: for those the `;M` segment is discarded from the
path as well; for any other scheme (e.g. `file`) `urlparse` leaves `;M` in
the path, so it survives percent-encoded — matching CPython, where
`encode_url("file://h/a;p")` is `"file://h/a%3Bp"`, not `"file://h/a"`.
`process_row` uses this `encode_url` output as the URL it downloads from and
records in the failure sidecar.  The bracket conditions in `hN` restrict the
statement to netlocs on which the model agrees with CPython (bracketed
netlocs are validated there and can raise `ValueError`). -/
theorem C10_encode_url_discards (S N P M Q F : Str)
    (hS : ∃ a t, S = a :: t ∧ isAsciiAlpha a = true ∧ t.all isSchemeChar = true)
    (hN : ∀ c ∈ N, isNetlocDelim c = false ∧ c ≠ 9 ∧ c ≠ 13 ∧ c ≠ 10 ∧
      c ≠ 91 ∧ c ≠ 93)
    (hP1 : ∃ t, P = 47 :: t)
    (hP2 : ∀ c ∈ P, c ≠ 35 ∧ c ≠ 63 ∧ c ≠ 59 ∧ c ≠ 9 ∧ c ≠ 13 ∧ c ≠ 10)
    (hM : ∀ c ∈ M, c ≠ 47 ∧ c ≠ 35 ∧ c ≠ 63)
    (hQ : (35 : Nat) ∉ Q) :
    encode_url (S ++ 58 :: 47 :: 47 :: (N ++ (P ++ 63 :: (Q ++ 35 :: F)))) =
        S.map toLowerAscii ++ 58 :: 47 :: 47 :: (N ++ pyQuote [47, 43] P) ∧
      (S.map toLowerAscii ∈ uses_params →
        encode_url (S ++ 58 :: 47 :: 47 ::
            (N ++ (P ++ 59 :: (M ++ 63 :: (Q ++ 35 :: F))))) =
          S.map toLowerAscii ++ 58 :: 47 :: 47 :: (N ++ pyQuote [47, 43] P)) ∧
      (S.map toLowerAscii ∉ uses_params →
        encode_url (S ++ 58 :: 47 :: 47 ::
            (N ++ (P ++ 59 :: (M ++ 63 :: (Q ++ 35 :: F))))) =
          S.map toLowerAscii ++ 58 :: 47 :: 47 ::
            (N ++ pyQuote [47, 43] (P ++ 59 :: M.filter urlKeepChar))) := by
  obtain ⟨a, t, hSe, ha, ht⟩ := hS
  have hSall : ∀ c ∈ S, isSchemeChar c = true := by
    intro c hc
    rw [hSe] at hc
    rcases List.mem_cons.1 hc with h1 | h1
    · rw [h1]
      exact isSchemeChar_of_alpha ha
    · exact List.all_eq_true.1 ht c h1
  have hfS : S.filter urlKeepChar = S := List.filter_eq_self.2 fun c hc =>
    urlKeepChar_iff.2 (by have := isSchemeChar_props (hSall c hc); omega)
  have hfN : N.filter urlKeepChar = N := List.filter_eq_self.2 fun c hc =>
    urlKeepChar_iff.2
      ⟨(hN c hc).2.1, (hN c hc).2.2.1, (hN c hc).2.2.2.1⟩
  have hfP : P.filter urlKeepChar = P := List.filter_eq_self.2 fun c hc =>
    urlKeepChar_iff.2 (hP2 c hc).2.2.2
  have hmemM : ∀ c ∈ M.filter urlKeepChar, c ≠ 47 ∧ c ≠ 35 ∧ c ≠ 63 :=
    fun c hc => hM c (List.mem_filter.1 hc).1
  have hmemQ : (35 : Nat) ∉ Q.filter urlKeepChar :=
    fun hc => hQ (List.mem_filter.1 hc).1
  have hdrop : ∀ R : Str, (S ++ 58 :: 47 :: 47 :: (N ++ R)).dropWhile
      (fun c => decide (c ≤ 32)) = S ++ 58 :: 47 :: 47 :: (N ++ R) := by
    intro R
    rw [hSe, List.cons_append, List.dropWhile_cons, if_neg (by
      simp only [decide_eq_true_eq, not_le]
      have := isSchemeChar_props (isSchemeChar_of_alpha ha)
      omega)]
  obtain ⟨P0, hP0⟩ := hP1
  have h59P : (59 : Nat) ∉ P := fun hc => (hP2 59 hc).2.2.1 rfl
  -- the variant without a params segment
  have hcleanA : cleanUrl (S ++ 58 :: 47 :: 47 ::
      (N ++ (P ++ 63 :: (Q ++ 35 :: F)))) =
      S ++ 58 :: 47 :: 47 :: (N ++ (P ++ 63 ::
        (Q.filter urlKeepChar ++ 35 :: F.filter urlKeepChar))) := by
    rw [cleanUrl, hdrop]
    rw [List.filter_append, List.filter_cons_of_pos (by rfl),
      List.filter_cons_of_pos (by rfl), List.filter_cons_of_pos (by rfl),
      List.filter_append, List.filter_append,
      List.filter_cons_of_pos (by rfl), List.filter_append,
      List.filter_cons_of_pos (by rfl), hfS, hfN, hfP]
  have hpsA : parseScheme (S ++ 58 :: 47 :: 47 :: (N ++ (P ++ 63 ::
      (Q.filter urlKeepChar ++ 35 :: F.filter urlKeepChar)))) =
      (S.map toLowerAscii, 47 :: 47 :: (N ++ (P ++ 63 ::
        (Q.filter urlKeepChar ++ 35 :: F.filter urlKeepChar)))) :=
    parseScheme_append _ ⟨a, t, hSe, ha, ht⟩
  have hnsA : netlocSplit (47 :: 47 :: (N ++ (P ++ 63 ::
      (Q.filter urlKeepChar ++ 35 :: F.filter urlKeepChar)))) =
      (N, P ++ 63 ::
        (Q.filter urlKeepChar ++ 35 :: F.filter urlKeepChar)) := by
    rw [netlocSplit_concat _ fun c hc => (hN c hc).1]
    rw [hP0]
    simp only [List.cons_append, List.takeWhile_cons, List.dropWhile_cons]
    norm_num [isNetlocDelim]
  have h35Aa : (35 : Nat) ∉ P ++ 63 :: Q.filter urlKeepChar := by
    intro hm
    rcases List.mem_append.1 hm with h1 | h1
    · exact (hP2 35 h1).1 rfl
    · rcases List.mem_cons.1 h1 with h2 | h2
      · omega
      · exact hmemQ h2
  have hfragA : fragSplit (P ++ 63 ::
      (Q.filter urlKeepChar ++ 35 :: F.filter urlKeepChar)) =
      (P ++ 63 :: Q.filter urlKeepChar, F.filter urlKeepChar) := by
    rw [fragSplit, show P ++ 63 ::
        (Q.filter urlKeepChar ++ 35 :: F.filter urlKeepChar) =
        (P ++ 63 :: Q.filter urlKeepChar) ++ 35 :: F.filter urlKeepChar
      by simp]
    rw [splitFirst_append_cons _ h35Aa]
  have hqueryA : querySplit (P ++ 63 :: Q.filter urlKeepChar) =
      (P, Q.filter urlKeepChar) := by
    rw [querySplit,
      splitFirst_append_cons _ fun hc => (hP2 63 hc).2.1 rfl]
  have hparseA : urlparse (S ++ 58 :: 47 :: 47 ::
      (N ++ (P ++ 63 :: (Q ++ 35 :: F)))) =
      ⟨S.map toLowerAscii, N, P, [],
        Q.filter urlKeepChar, F.filter urlKeepChar⟩ := by
    have hsplitA : urlsplit (S ++ 58 :: 47 :: 47 ::
        (N ++ (P ++ 63 :: (Q ++ 35 :: F)))) =
        ⟨S.map toLowerAscii, N, P,
          Q.filter urlKeepChar, F.filter urlKeepChar⟩ := by
      rw [urlsplit, hcleanA, hpsA]
      simp only [hnsA, hfragA, hqueryA]
    rw [urlparse, hsplitA]
    simp [h59P]
  -- the variant with a `;M` params segment
  have hclean : cleanUrl (S ++ 58 :: 47 :: 47 ::
      (N ++ (P ++ 59 :: (M ++ 63 :: (Q ++ 35 :: F))))) =
      S ++ 58 :: 47 :: 47 ::
        (N ++ (P ++ 59 :: (M.filter urlKeepChar ++ 63 ::
          (Q.filter urlKeepChar ++ 35 :: F.filter urlKeepChar)))) := by
    rw [cleanUrl, hdrop]
    rw [List.filter_append, List.filter_cons_of_pos (by rfl),
      List.filter_cons_of_pos (by rfl), List.filter_cons_of_pos (by rfl),
      List.filter_append, List.filter_append,
      List.filter_cons_of_pos (by rfl), List.filter_append,
      List.filter_cons_of_pos (by rfl), List.filter_append,
      List.filter_cons_of_pos (by rfl), hfS, hfN, hfP]
  have hps : parseScheme (S ++ 58 :: 47 :: 47 ::
      (N ++ (P ++ 59 :: (M.filter urlKeepChar ++ 63 ::
        (Q.filter urlKeepChar ++ 35 :: F.filter urlKeepChar))))) =
      (S.map toLowerAscii, 47 :: 47 ::
        (N ++ (P ++ 59 :: (M.filter urlKeepChar ++ 63 ::
          (Q.filter urlKeepChar ++ 35 :: F.filter urlKeepChar))))) :=
    parseScheme_append _ ⟨a, t, hSe, ha, ht⟩
  have hns : netlocSplit (47 :: 47 ::
      (N ++ (P ++ 59 :: (M.filter urlKeepChar ++ 63 ::
        (Q.filter urlKeepChar ++ 35 :: F.filter urlKeepChar))))) =
      (N, P ++ 59 :: (M.filter urlKeepChar ++ 63 ::
        (Q.filter urlKeepChar ++ 35 :: F.filter urlKeepChar))) := by
    rw [netlocSplit_concat _ fun c hc => (hN c hc).1]
    rw [hP0]
    simp only [List.cons_append, List.takeWhile_cons, List.dropWhile_cons]
    norm_num [isNetlocDelim]
  have h35A : (35 : Nat) ∉ P ++ 59 ::
      (M.filter urlKeepChar ++ 63 :: Q.filter urlKeepChar) := by
    intro hm
    rcases List.mem_append.1 hm with h1 | h1
    · exact (hP2 35 h1).1 rfl
    · rcases List.mem_cons.1 h1 with h2 | h2
      · omega
      · rcases List.mem_append.1 h2 with h3 | h3
        · exact (hmemM 35 h3).2.1 rfl
        · rcases List.mem_cons.1 h3 with h4 | h4
          · omega
          · exact hmemQ h4
  have hfrag : fragSplit (P ++ 59 :: (M.filter urlKeepChar ++ 63 ::
      (Q.filter urlKeepChar ++ 35 :: F.filter urlKeepChar))) =
      (P ++ 59 :: (M.filter urlKeepChar ++ 63 :: Q.filter urlKeepChar),
        F.filter urlKeepChar) := by
    rw [fragSplit, show P ++ 59 :: (M.filter urlKeepChar ++ 63 ::
        (Q.filter urlKeepChar ++ 35 :: F.filter urlKeepChar)) =
        (P ++ 59 :: (M.filter urlKeepChar ++ 63 :: Q.filter urlKeepChar)) ++
          35 :: F.filter urlKeepChar by simp]
    rw [splitFirst_append_cons _ h35A]
  have h63A : (63 : Nat) ∉ P ++ 59 :: M.filter urlKeepChar := by
    intro hm
    rcases List.mem_append.1 hm with h1 | h1
    · exact (hP2 63 h1).2.1 rfl
    · rcases List.mem_cons.1 h1 with h2 | h2
      · omega
      · exact (hmemM 63 h2).2.2 rfl
  have hquery : querySplit (P ++ 59 ::
      (M.filter urlKeepChar ++ 63 :: Q.filter urlKeepChar)) =
      (P ++ 59 :: M.filter urlKeepChar, Q.filter urlKeepChar) := by
    rw [querySplit, show P ++ 59 ::
        (M.filter urlKeepChar ++ 63 :: Q.filter urlKeepChar) =
        (P ++ 59 :: M.filter urlKeepChar) ++ 63 :: Q.filter urlKeepChar
      by simp]
    rw [splitFirst_append_cons _ h63A]
  have hsplit : urlsplit (S ++ 58 :: 47 :: 47 ::
      (N ++ (P ++ 59 :: (M ++ 63 :: (Q ++ 35 :: F))))) =
      ⟨S.map toLowerAscii, N, P ++ 59 :: M.filter urlKeepChar,
        Q.filter urlKeepChar, F.filter urlKeepChar⟩ := by
    rw [urlsplit, hclean, hps]
    simp only [hns, hfrag, hquery]
  obtain ⟨P1, P2, hPsplit, hP2no47⟩ :=
    exists_last_occurrence (show (47 : Nat) ∈ P by rw [hP0]; simp)
  have hsemi : (59 : Nat) ∈ P ++ 59 :: M.filter urlKeepChar := by simp
  have hlast : splitLast 47 (P ++ 59 :: M.filter urlKeepChar) =
      some (P1, P2 ++ 59 :: M.filter urlKeepChar) := by
    rw [hPsplit, List.append_assoc, List.cons_append]
    exact splitLast_append_cons _ (by
      intro hm
      rcases List.mem_append.1 hm with h1 | h1
      · exact hP2no47 h1
      · rcases List.mem_cons.1 h1 with h2 | h2
        · omega
        · exact (hmemM 47 h2).1 rfl)
  have hfirst59 : splitFirst 59 (P2 ++ 59 :: M.filter urlKeepChar) =
      some (P2, M.filter urlKeepChar) :=
    splitFirst_append_cons _ fun hc =>
      (hP2 59 (by rw [hPsplit]; simp [hc])).2.2.1 rfl
  have hparams : splitparams (P ++ 59 :: M.filter urlKeepChar) =
      (P, M.filter urlKeepChar) := by
    simp only [splitparams, hlast, hfirst59]
    rw [hPsplit]
  refine ⟨?_, fun hU => ?_, fun hU => ?_⟩
  · rw [encode_url, hparseA]
  · have hparseB : urlparse (S ++ 58 :: 47 :: 47 ::
        (N ++ (P ++ 59 :: (M ++ 63 :: (Q ++ 35 :: F))))) =
        ⟨S.map toLowerAscii, N, P, M.filter urlKeepChar,
          Q.filter urlKeepChar, F.filter urlKeepChar⟩ := by
      rw [urlparse, hsplit]
      simp [hsemi, hparams, hU]
    rw [encode_url, hparseB]
  · have hparseC : urlparse (S ++ 58 :: 47 :: 47 ::
        (N ++ (P ++ 59 :: (M ++ 63 :: (Q ++ 35 :: F))))) =
        ⟨S.map toLowerAscii, N, P ++ 59 :: M.filter urlKeepChar, [],
          Q.filter urlKeepChar, F.filter urlKeepChar⟩ := by
      rw [urlparse, hsplit]
      simp [hU]
    rw [encode_url, hparseC]

/-- Witness for C10 at concrete components: for the `uses_params` scheme
`http` the parameters, query and fragment of `http://host/dir/a b;p?q=1#frag`
are all dropped and the path is percent-encoded; for the scheme `file` the
`;p` segment stays in the (percent-encoded) path while query and fragment
are still dropped. -/
theorem C10_encode_url_discards_witness :
    (∀ c ∈ str "host", isNetlocDelim c = false ∧ c ≠ 9 ∧ c ≠ 13 ∧ c ≠ 10 ∧
        c ≠ 91 ∧ c ≠ 93) ∧
      encode_url (str "http" ++ 58 :: 47 :: 47 ::
        (str "host" ++ (str "/dir/a b" ++ 59 :: (str "p" ++ 63 ::
          (str "q=1" ++ 35 :: str "frag"))))) =
        (str "http").map toLowerAscii ++ 58 :: 47 :: 47 ::
          (str "host" ++ pyQuote [47, 43] (str "/dir/a b")) ∧
      encode_url (str "file" ++ 58 :: 47 :: 47 ::
        (str "host" ++ (str "/a" ++ 59 :: (str "p" ++ 63 ::
          (str "q" ++ 35 :: str "f"))))) =
        (str "file").map toLowerAscii ++ 58 :: 47 :: 47 ::
          (str "host" ++ pyQuote [47, 43]
            (str "/a" ++ 59 :: (str "p").filter urlKeepChar)) :=
  ⟨by decide,
    (C10_encode_url_discards (str "http") (str "host") (str "/dir/a b")
      (str "p") (str "q=1") (str "frag")
      ⟨104, [116, 116, 112], by decide, by decide, by decide⟩ (by decide)
      ⟨[100, 105, 114, 47, 97, 32, 98], by decide⟩
      (by decide) (by decide) (by decide)).2.1 (by decide),
    (C10_encode_url_discards (str "file") (str "host") (str "/a")
      (str "p") (str "q") (str "f")
      ⟨102, [105, 108, 101], by decide, by decide, by decide⟩ (by decide)
      ⟨[97], by decide⟩
      (by decide) (by decide) (by decide)).2.2 (by decide)⟩

/-! ## File-system lemmas -/

lemma fsExists_fsWrite (fs : List (Str × List Nat)) (p : Str) (d : List Nat) :
    fsExists (fsWrite fs p d) p = true := by
  simp [fsExists, fsWrite, List.find?]

lemma fsGet_fsWrite (fs : List (Str × List Nat)) (p : Str) (d : List Nat) :
    fsGet (fsWrite fs p d) p = some d := by
  simp [fsGet, fsWrite, List.find?]

lemma fsExists_fsRemove (fs : List (Str × List Nat)) (p : Str) :
    fsExists (fsRemove fs p) p = false := by
  have hnone : (fsRemove fs p).find? (fun e => decide (e.1 = p)) = none := by
    rw [List.find?_eq_none]
    intro x hx
    have hne := List.of_mem_filter hx
    simp only [decide_eq_true_eq] at hne ⊢
    exact hne
  rw [fsExists, hnone]
  rfl

/-! ## The claims -/

/-- Claim C3: `process_csv` never forwards its `delete` parameter to
`process_row` — the lambda passed to the worker map fixes `delete` at its
default `False`, so the run's outcome is independent of the dispatcher's
`delete` argument. -/
theorem C3_process_csv_delete_never_forwarded (envs : Nat → Env)
    (csv_data : List Row) (keys : Keys) (id_type : Str) (skip : Bool)
    (max_workers : Nat) (w : W) (d1 d2 : Bool) :
    process_csv envs csv_data keys id_type skip d1 max_workers w =
      process_csv envs csv_data keys id_type skip d2 max_workers w := rfl

/-- Counterexample to claim C6 as stated: a concrete call of the random
identifier policy returns an 8-character string (not ≥ 20), and the alphabet
it draws from has 62 symbols (not 36). -/
theorem C6_random_identifier_cex :
    create_identifier (fun _ => 0) (fun _ => 26) (str "random") none =
        .ok (str "AAAAAAAA") ∧
      (str "AAAAAAAA").length = 8 ∧ ¬20 ≤ (str "AAAAAAAA").length ∧
      lettersDigits.length = 62 ∧ lettersDigits.length ≠ 36 := by decide

/-- Claim C6, amended: the random identifier policy returns a fixed-length
string of 8 characters (not ≥ 20) drawn from the 62-symbol alphabet of ASCII
letters (both cases) and digits (not a 36-symbol alphabet). -/
theorem C6_random_identifier_amended (md5f : List Nat → Fin (2 ^ 128))
    (rand : Nat → Nat) (orow : Option Row) :
    ∃ s, create_identifier md5f rand (str "random") orow = .ok s ∧
      s.length = 8 ∧ (∀ c ∈ s, c ∈ lettersDigits) ∧
      lettersDigits.length = 62 := by
  refine ⟨pyChoices rand lettersDigits 8, rfl, ?_, ?_, by decide⟩
  · simp [pyChoices]
  · intro c hc
    rw [pyChoices] at hc
    obtain ⟨i, hi, rfl⟩ := List.mem_map.1 hc
    have hlt : rand i % lettersDigits.length < lettersDigits.length :=
      Nat.mod_lt _ (by decide)
    rw [List.getD_eq_getElem _ _ hlt]
    exact List.getElem_mem hlt

/-- Witness for the amended C6 at a concrete random source. -/
theorem C6_random_identifier_amended_witness :
    ∃ s, create_identifier (fun _ => 0) (fun _ => 0) (str "random") none =
        .ok s ∧ s.length = 8 ∧ (∀ c ∈ s, c ∈ lettersDigits) ∧
      lettersDigits.length = 62 :=
  C6_random_identifier_amended (fun _ => 0) (fun _ => 0) none

/-- Counterexample to claim C7 as stated: a metadata value that contained the
control character `0x01` still contains it after normalisation — only NUL is
stripped. -/
theorem C7_control_char_survives_cex :
    rowMetadata (clean_row [(str "file", str "u"), (str "t", [97, 1, 98])]) =
        [(str "t", [97, 1, 98])] ∧
      (1 : Nat) ∈ [97, 1, 98] ∧ (1 : Nat) < 32 ∧
      (1 : Nat) ∉ [9, 10, 13, 32] := by decide

/-- Claim C7, amended: normalized metadata contains neither the `file` nor
the `identifier` key, and no metadata value contains the NUL character
(`0x00`); other control characters below `0x20` are not removed. -/
theorem C7_metadata_keys_nul_amended (row : Row) :
    ∀ kv ∈ rowMetadata (clean_row row),
      kv.1 ≠ str "identifier" ∧ kv.1 ≠ str "file" ∧ (0 : Nat) ∉ kv.2 := by
  intro kv hkv
  obtain ⟨hmem, hpred⟩ := List.mem_filter.1 hkv
  simp only [Bool.and_eq_true, decide_eq_true_eq] at hpred
  refine ⟨hpred.1, hpred.2, ?_⟩
  obtain ⟨⟨k, v⟩, hv, rfl⟩ := List.mem_map.1 hmem
  intro h0
  have := List.of_mem_filter h0
  simp at this

/-- Witness for C7 at a concrete row. -/
theorem C7_metadata_keys_nul_amended_witness :
    (str "t", str "v") ∈
        rowMetadata (clean_row [(str "file", str "u"), (str "t", str "v")]) ∧
      ((str "t", str "v").1 ≠ str "identifier" ∧
        (str "t", str "v").1 ≠ str "file" ∧ (0 : Nat) ∉ (str "t", str "v").2) :=
  ⟨by decide,
    C7_metadata_keys_nul_amended [(str "file", str "u"), (str "t", str "v")]
      (str "t", str "v") (by decide)⟩

/-- Claim C8: the content-hash policy returns the 32-digit hex digest of the
128-bit md5 hash of the concatenation of the row's values in column order,
and is deterministic — rows with identical value sequences get identical
identifiers. -/
theorem C8_hash_identifier_deterministic (md5f : List Nat → Fin (2 ^ 128))
    (rand : Nat → Nat) (row row2 : Row) :
    create_identifier md5f rand (str "hash") (some row) =
        .ok (hexdigest128 (md5f (strUtf8 (joinValues row)))) ∧
      (hexdigest128 (md5f (strUtf8 (joinValues row)))).length = 32 ∧
      (row2.map Prod.snd = row.map Prod.snd →
        create_identifier md5f rand (str "hash") (some row2) =
          create_identifier md5f rand (str "hash") (some row)) := by
  refine ⟨rfl, by simp [hexdigest128], ?_⟩
  intro h
  have hj : joinValues row2 = joinValues row := by rw [joinValues, joinValues, h]
  show Except.ok (hexdigest128 (md5f (strUtf8 (joinValues row2)))) = _
  rw [hj]
  rfl

/-- Witness for C8: two rows with different keys but the same values get the
same identifier. -/
theorem C8_hash_identifier_deterministic_witness :
    ([(str "k2", str "x")] : Row).map Prod.snd =
        ([(str "k1", str "x")] : Row).map Prod.snd ∧
      create_identifier (fun _ => 0) (fun _ => 0) (str "hash")
          (some [(str "k1", str "x")]) =
        .ok (hexdigest128 ((fun _ => (0 : Fin (2 ^ 128)))
          (strUtf8 (joinValues [(str "k1", str "x")])))) ∧
      create_identifier (fun _ => 0) (fun _ => 0) (str "hash")
          (some [(str "k2", str "x")]) =
        create_identifier (fun _ => 0) (fun _ => 0) (str "hash")
          (some [(str "k1", str "x")]) :=
  ⟨by decide,
    (C8_hash_identifier_deterministic (fun _ => 0) (fun _ => 0)
      [(str "k1", str "x")] [(str "k2", str "x")]).1,
    (C8_hash_identifier_deterministic (fun _ => 0) (fun _ => 0)
      [(str "k1", str "x")] [(str "k2", str "x")]).2.2 (by decide)⟩

/-- Counterexample to claim C1 as stated: in a concrete run whose download
succeeds and whose upload raises, `process_row` completes normally but the
scratch file `/tmp/t0` still exists afterwards; likewise after a delete-mode
completion. -/
theorem C1_scratch_file_survives_cex :
    fsExists (process_row envFail rowA keys0 3 (str "hash") true false w0).1.fs
        (str "/tmp/t0") = true ∧
      (process_row envFail rowA keys0 3 (str "hash") true false w0).2 =
        .ok () ∧
      fsExists (process_row envFail rowA keys0 3 (str "hash") true true w0).1.fs
        (str "/tmp/t0") = true := by decide

/-- Claim C1, amended: for a row whose download succeeds, the scratch file is
gone after a successful upload (the archive client, called with
`delete=True`, removes it); but after an upload failure and after delete-mode
completion the scratch file still exists — those two exit paths do not delete
it. -/
theorem C1_scratch_file_cleanup_amended (env : Env) (row : Row) (keys : Keys)
    (sleep : Nat) (id_type : Str) (skip : Bool) (w : W) (u ident : Str)
    (s : Nat) (b : List Nat)
    (h1 : rowGet row (str "file") = some u)
    (h2 : rowIdentifier env id_type row = .ok ident)
    (h3 : env.itemExists ident = false)
    (h4 : env.http (encode_url u) = .resp s b) :
    (env.uploadExc ident = none →
      fsExists (process_row env row keys sleep id_type skip false w).1.fs
        env.tmpName = false) ∧
      (∀ m, env.uploadExc ident = some m →
        fsExists (process_row env row keys sleep id_type skip false w).1.fs
          env.tmpName = true) ∧
      fsExists (process_row env row keys sleep id_type skip true w).1.fs
        env.tmpName = true := by
  refine ⟨fun hup => ?_, fun m hup => ?_, ?_⟩
  · simp [process_row.eq_def, h1, h2, h3, h4, hup, download_file_with_progress,
      upload_to_internet_archive, delete_item, addEvent, logAt,
      write_failed_url, fsExists_fsWrite, fsExists_fsRemove]
  · simp [process_row.eq_def, h1, h2, h3, h4, hup, download_file_with_progress,
      upload_to_internet_archive, delete_item, addEvent, logAt,
      write_failed_url, fsExists_fsWrite, fsExists_fsRemove]
  · simp [process_row.eq_def, h1, h2, h3, h4, download_file_with_progress,
      upload_to_internet_archive, delete_item, addEvent, logAt,
      write_failed_url, fsExists_fsWrite, fsExists_fsRemove]

/-- Witness for the amended C1: in the all-uploads-succeed environment the
concrete row's scratch file is gone after the run. -/
theorem C1_scratch_file_cleanup_amended_witness :
    rowGet rowA (str "file") = some (str "http://h/f.mp4") ∧
      ((envOk.uploadExc (hexdigest128 0) = none →
        fsExists (process_row envOk rowA keys0 3 (str "hash") true false
          w0).1.fs envOk.tmpName = false) ∧
        (∀ m, envOk.uploadExc (hexdigest128 0) = some m →
          fsExists (process_row envOk rowA keys0 3 (str "hash") true false
            w0).1.fs envOk.tmpName = true) ∧
        fsExists (process_row envOk rowA keys0 3 (str "hash") true
          true w0).1.fs envOk.tmpName = true) :=
  ⟨by decide,
    C1_scratch_file_cleanup_amended envOk rowA keys0 3 (str "hash") true w0
      (str "http://h/f.mp4") (hexdigest128 0) 200 (str "BODY")
      (by decide) (by decide) (by decide) (by decide)⟩

/-- Counterexample to claim C2 as stated: a row without a `file` column makes
`process_row` raise `KeyError("file")` — the error is not caught inside the
row pipeline and propagates to the caller. -/
theorem C2_error_propagates_cex :
    process_row envFail [] keys0 3 (str "hash") true false w0 =
      (w0, .error (.keyError (str "file"))) := by decide

/-- Claim C2, amended: only errors raised by the upload call are caught
inside the row pipeline (logged and recorded in the failure sidecar); errors
from missing row fields and exceptions raised by the download propagate out
of `process_row`, and in `process_csv` such an exception aborts the
processing of the remaining rows. -/
theorem C2_error_containment_amended (env : Env) (row : Row) (keys : Keys)
    (sleep : Nat) (id_type : Str) (skip : Bool) (w : W) (u ident : Str)
    (h1 : rowGet row (str "file") = some u)
    (h2 : rowIdentifier env id_type row = .ok ident)
    (h3 : env.itemExists ident = false) :
    (∀ s b m, env.http (encode_url u) = .resp s b →
      env.uploadExc ident = some m →
      (process_row env row keys sleep id_type skip false w).2 = .ok () ∧
        (process_row env row keys sleep id_type skip false w).1.failed =
          w.failed ++ [encode_url u] ∧
        (LogLevel.error, str "Failed to upload " ++ basename env.tmpName ++
            str ": " ++ m) ∈
          (process_row env row keys sleep id_type skip false w).1.log) ∧
      (∀ m, env.http (encode_url u) = .raised m →
        (process_row env row keys sleep id_type skip false w).2 =
          .error (.requestsError m)) ∧
      (∀ (envs : Nat → Env) (rest : List Row) (keys2 : Keys) (id2 : Str)
          (sk2 d : Bool) (mw : Nat) (w2 : W) (row2 : Row),
        rowGet (clean_row row2) (str "file") = none →
        process_csv envs (row2 :: rest) keys2 id2 sk2 d mw w2 =
          (w2, .error (.keyError (str "file")))) := by
  refine ⟨fun s b m hh hup => ?_, fun m hh => ?_,
    fun envs rest k2 i2 s2 d mw w2 r2 hr => ?_⟩
  · refine ⟨?_, ?_, ?_⟩ <;>
      simp [process_row.eq_def, h1, h2, h3, hh, hup,
        download_file_with_progress, upload_to_internet_archive, addEvent,
        logAt, write_failed_url]
  · simp [process_row.eq_def, h1, h2, h3, hh, download_file_with_progress,
      addEvent, logAt]
  · simp [process_csv, clean_csv_data, processRows, process_row.eq_def, hr]

/-- Witness for the amended C2: the upload failure of the concrete row is
contained and recorded. -/
theorem C2_error_containment_amended_witness :
    envFail.uploadExc (hexdigest128 0) = some (str "boom") ∧
      ((process_row envFail rowA keys0 3 (str "hash") true false w0).2 =
        .ok () ∧
        (process_row envFail rowA keys0 3 (str "hash") true false
          w0).1.failed = w0.failed ++ [encode_url (str "http://h/f.mp4")] ∧
        (LogLevel.error, str "Failed to upload " ++ basename envFail.tmpName ++
            str ": " ++ str "boom") ∈
          (process_row envFail rowA keys0 3 (str "hash") true false
            w0).1.log) :=
  ⟨by decide,
    (C2_error_containment_amended envFail rowA keys0 3 (str "hash") true w0
      (str "http://h/f.mp4") (hexdigest128 0)
      (by decide) (by decide) (by decide)).1 200 (str "BODY") (str "boom")
      (by decide) (by decide)⟩

/-- Counterexample to claim C4 as stated: a fetch receiving a `404` response
returns `ok=true` (not a failure result) and leaves the error body as the
downloaded file. -/
theorem C4_fetch_nonok_status_returns_true_cex :
    (download_file_with_progress (fun _ => .resp 404 (str "nf"))
        (str "http://h/f.mp4") (str "/tmp/t0") w0).2 = .ok true ∧
      fsGet (download_file_with_progress (fun _ => .resp 404 (str "nf"))
        (str "http://h/f.mp4") (str "/tmp/t0") w0).1.fs (str "/tmp/t0") =
        some (str "nf") := by decide

/-- Claim C4, amended: (i) the fetch returns `ok=true` for every received
response, whatever the status code, writing the body to the scratch file;
(ii) on a connection failure or timeout the exception from `requests.get`
propagates out of the row pipeline, the scratch file (created empty
beforehand) still exists afterwards, and nothing is appended to the failure
sidecar; (iii) the fetch never returns `ok=false`, so the caller's
fetch-failure branch (record URL, remove file) is unreachable. -/
theorem C4_fetch_failure_behaviour_amended (env : Env) (row : Row)
    (keys : Keys) (sleep : Nat) (id_type : Str) (skip : Bool) (w : W)
    (u ident : Str) :
    (∀ (net : Str → HttpOutcome) (url p : Str) (w2 : W) (s : Nat)
        (b : List Nat), net url = .resp s b →
      (download_file_with_progress net url p w2).2 = .ok true ∧
        fsGet (download_file_with_progress net url p w2).1.fs p = some b) ∧
      (∀ m, rowGet row (str "file") = some u →
        rowIdentifier env id_type row = .ok ident →
        env.itemExists ident = false →
        env.http (encode_url u) = .raised m →
        (process_row env row keys sleep id_type skip false w).2 =
          .error (.requestsError m) ∧
          fsExists (process_row env row keys sleep id_type skip false w).1.fs
            env.tmpName = true ∧
          (process_row env row keys sleep id_type skip false w).1.failed =
            w.failed) ∧
      (∀ (net : Str → HttpOutcome) (url p : Str) (w2 : W),
        (download_file_with_progress net url p w2).2 ≠ .ok false) := by
  refine ⟨fun net url p w2 s b hh => ?_, fun m h1 h2 h3 hh => ?_,
    fun net url p w2 => ?_⟩
  · simp [download_file_with_progress, hh, fsGet_fsWrite]
  · refine ⟨?_, ?_, ?_⟩ <;>
      simp [process_row.eq_def, h1, h2, h3, hh, download_file_with_progress,
        addEvent, logAt, fsExists_fsWrite]
  · rcases hh : net url with m | ⟨s, b⟩ <;>
      simp [download_file_with_progress, hh]

/-- Witness for the amended C4: the concrete raising environment leaves the
empty scratch file behind and records nothing. -/
theorem C4_fetch_failure_behaviour_amended_witness :
    envRaise.http (encode_url (str "http://h/f.mp4")) =
        .raised (str "conn") ∧
      ((process_row envRaise rowA keys0 3 (str "hash") true false w0).2 =
        .error (.requestsError (str "conn")) ∧
        fsExists (process_row envRaise rowA keys0 3 (str "hash") true false
          w0).1.fs envRaise.tmpName = true ∧
        (process_row envRaise rowA keys0 3 (str "hash") true false
          w0).1.failed = w0.failed) :=
  ⟨by decide,
    (C4_fetch_failure_behaviour_amended envRaise rowA keys0 3 (str "hash")
      true w0 (str "http://h/f.mp4") (hexdigest128 0)).2.1 (str "conn")
      (by decide) (by decide) (by decide) (by decide)⟩

/-- Counterexample to claim C5 as stated: for an existing identifier with
skip-mode on, a row without an `identifier` column is not logged as skipped —
the skip-log line itself raises `KeyError("identifier")`, which propagates
(the only external call is the existence check). -/
theorem C5_skip_missing_identifier_cex :
    (process_row envExists rowA keys0 3 (str "hash") true false w0).2 =
        .error (.keyError (str "identifier")) ∧
      (process_row envExists rowA keys0 3 (str "hash") true false w0).1.log =
        [] ∧
      (process_row envExists rowA keys0 3 (str "hash") true false
        w0).1.events = [.getItem (hexdigest128 0)] := by decide

/-- Claim C5, amended: when the oracle reports the identifier exists and
skip-mode is on, no fetch and no sink (upload or delete) call happens — the
only external call is the existence check — and the local files and failure
sidecar are untouched; the row is logged as skipped only when it has an
`identifier` column, otherwise the skip-log line raises
`KeyError("identifier")`. -/
theorem C5_skip_no_fetch_no_sink_amended (env : Env) (row : Row) (keys : Keys)
    (sleep : Nat) (id_type : Str) (delete : Bool) (w : W) (u ident : Str)
    (h1 : rowGet row (str "file") = some u)
    (h2 : rowIdentifier env id_type row = .ok ident)
    (h3 : env.itemExists ident = true) :
    (process_row env row keys sleep id_type true delete w).1.events =
        w.events ++ [.getItem ident] ∧
      (process_row env row keys sleep id_type true delete w).1.fs = w.fs ∧
      (process_row env row keys sleep id_type true delete w).1.failed =
        w.failed ∧
      (∀ v, rowGet row (str "identifier") = some v →
        process_row env row keys sleep id_type true delete w =
          (logAt .info (addEvent w (.getItem ident))
            (str "Skipping existing item: " ++ v), .ok ())) ∧
      (rowGet row (str "identifier") = none →
        (process_row env row keys sleep id_type true delete w).2 =
          .error (.keyError (str "identifier"))) := by
  rcases hid : rowGet row (str "identifier") with _ | v
  · refine ⟨?_, ?_, ?_, ?_, ?_⟩ <;>
      simp [process_row.eq_def, h1, h2, h3, hid, addEvent, logAt]
  · refine ⟨?_, ?_, ?_, ?_, ?_⟩ <;>
      simp [process_row.eq_def, h1, h2, h3, hid, addEvent, logAt]

/-- Witness for the amended C5: a row that carries an `identifier` column is
skipped with an info log and no fetch or sink call. -/
theorem C5_skip_no_fetch_no_sink_amended_witness :
    envExists.itemExists (str "abc") = true ∧
      ((process_row envExists [(str "file", str "http://h/f.mp4"),
          (str "identifier", str "abc")] keys0 3 (str "identifier") true false
          w0).1.events = w0.events ++ [.getItem (str "abc")] ∧
        (process_row envExists [(str "file", str "http://h/f.mp4"),
          (str "identifier", str "abc")] keys0 3 (str "identifier") true false
          w0).1.fs = w0.fs ∧
        (process_row envExists [(str "file", str "http://h/f.mp4"),
          (str "identifier", str "abc")] keys0 3 (str "identifier") true false
          w0).1.failed = w0.failed ∧
        (∀ v, rowGet [(str "file", str "http://h/f.mp4"),
            (str "identifier", str "abc")] (str "identifier") = some v →
          process_row envExists [(str "file", str "http://h/f.mp4"),
            (str "identifier", str "abc")] keys0 3 (str "identifier") true
            false w0 =
            (logAt .info (addEvent w0 (.getItem (str "abc")))
              (str "Skipping existing item: " ++ v), .ok ())) ∧
        (rowGet [(str "file", str "http://h/f.mp4"),
            (str "identifier", str "abc")] (str "identifier") = none →
          (process_row envExists [(str "file", str "http://h/f.mp4"),
            (str "identifier", str "abc")] keys0 3 (str "identifier") true
            false w0).2 = .error (.keyError (str "identifier")))) :=
  ⟨by decide,
    C5_skip_no_fetch_no_sink_amended envExists
      [(str "file", str "http://h/f.mp4"), (str "identifier", str "abc")]
      keys0 3 (str "identifier") false w0 (str "http://h/f.mp4") (str "abc")
      (by decide) (by decide) (by decide)⟩

end IAUpload
